import Mathlib

/-!
# CORS filter of go-restful (`cors_filter.go`)

A shallow embedding of `CrossOriginResourceSharing.Filter` and of the helpers it calls,
followed by theorems about what the filter appends to the response and whether it hands
the request on to the rest of the filter chain.

Conventions of the embedding

* Go strings are Lean strings.  `strings.Contains` is a search for a contiguous run of
  characters.  Both fixed lists searched by the filter are ASCII, so searching characters
  and searching bytes give the same verdict on every well-formed (UTF-8) argument.
* The two side effects of the filter, `resp.AddHeader` and `chain.ProcessFilter`, are recorded
  in order of execution in a `Trace`; every function that has a side effect takes the trace
  so far and returns the extended one.
* The process-wide registry read by `RegisteredWebServices()` is an explicit argument.
* A compiled regular expression is the function computed by its `FindStringSubmatch`:
  `none` is Go's `nil` (no match), `some ms` the slice of submatches.
* An index out of range is a run-time panic in Go; functions that can reach one return
  `Option`, with `none` for the panic.
-/

set_option linter.dupNamespace false

namespace Restful

/-! ## Strings -/

/-- Search for `substr` as a contiguous run inside `s`, on character lists. -/
def containsChars : List Char → List Char → Bool
  | [], substr => substr.isPrefixOf []
  | c :: cs, substr => substr.isPrefixOf (c :: cs) || containsChars cs substr

/-- Go `strings.Contains(s, substr)`: reports whether `substr` is within `s`. -/
def strings.Contains (s substr : String) : Bool :=
  containsChars s.data substr.data

/-- Go `strings.ToLower(s)` on ASCII text: the letters `A`..`Z` become `a`..`z`, every other
character is kept.  (On non-ASCII runes Go applies the Unicode lower-case mapping; no such
rune maps to a character of the list searched by the filter, so verdicts are unaffected.) -/
def strings.ToLower (s : String) : String :=
  String.mk (s.data.map Char.toLower)

/-- Go `strings.ToUpper(s)` on ASCII text: the letters `a`..`z` become `A`..`Z`. -/
def strings.ToUpper (s : String) : String :=
  String.mk (s.data.map Char.toUpper)

/-- A string all of whose characters are ASCII. -/
def isASCII (s : String) : Bool :=
  s.data.all (fun c => decide (c.toNat < 128))

/-! ## Requests, responses and the filter chain -/

/-- Go `http.Header`: a map from (canonical) header names to the values sent under that name,
kept as an association list in which the first entry for a name is the one in force. -/
abbrev Header := List (String × List String)

/-- Go `Header.Get(key)`: the first value associated with the key, `""` when there is none.
The keys used by the filter are already in canonical form. -/
def Header.Get (h : Header) (key : String) : String :=
  match h.lookup key with
  | some (v :: _) => v
  | _ => ""

/-- Go `url.URL`, of which only the path is read. -/
structure URL where
  Path : String

/-- Go `http.Request`, with the fields read by the filter. -/
structure HttpRequest where
  Method : String
  Header : Header
  URL : URL

/-- The go-restful `Request` wrapper around the `http.Request`. -/
structure Request where
  Request : HttpRequest

/-- One observable side effect of a filter. -/
inductive Effect where
  | addHeader (header value : String)
  | processFilter
  deriving DecidableEq, Repr

/-- The side effects performed so far, oldest first. -/
abbrev Trace := List Effect

/-- Go `resp.AddHeader(header, value)`: append one header to the response. -/
def AddHeader (t : Trace) (header value : String) : Trace :=
  t ++ [Effect.addHeader header value]

/-- Go `chain.ProcessFilter(req, resp)`: hand the request to the next filter of the chain. -/
def ProcessFilter (t : Trace) : Trace :=
  t ++ [Effect.processFilter]

/-! ## The route table -/

/-- Go `*regexp.Regexp`, through its `FindStringSubmatch`. -/
structure Regexp where
  FindStringSubmatch : String → Option (List String)

/-- The go-restful `pathExpression`, of which only the compiled matcher is read. -/
structure pathExpression where
  Matcher : Regexp

/-- A go-restful `Route`. -/
structure Route where
  Method : String
  pathExpr : pathExpression

/-- A go-restful `WebService`. -/
structure WebService where
  pathExpr : pathExpression
  routes : List Route

/-- Go `ws.Routes()`. -/
def WebService.Routes (ws : WebService) : List Route :=
  ws.routes

/-! ## The filter -/

/-- The configuration of the filter. -/
structure CrossOriginResourceSharing where
  ExposeHeaders : Bool
  CookiesAllowed : Bool

/-- Go `c.isValidAccessControlRequestMethod(method)`. -/
def isValidAccessControlRequestMethod (_c : CrossOriginResourceSharing) (method : String) : Bool :=
  strings.Contains "GET PUT POST DELETE HEAD OPTIONS PATCH" method

/-- Go `c.isValidAccessControlRequestHeader(header)`. -/
def isValidAccessControlRequestHeader (_c : CrossOriginResourceSharing) (header : String) : Bool :=
  strings.Contains "accept content-type" (strings.ToLower header)

/-- Go `matches[len(matches)-1]`; `none` is the index-out-of-range panic on an empty slice. -/
def lastIndex (xs : List String) : Option String :=
  xs.getLast?

/-- The inner loop of `computeAllowedMethods`, over the routes of one web service. -/
def collectRoutes (finalMatch : String) : List Route → List String → Option (List String)
  | [], methods => some methods
  | rt :: rts, methods =>
    match rt.pathExpr.Matcher.FindStringSubmatch finalMatch with
    | none => collectRoutes finalMatch rts methods
    | some ms =>
      match lastIndex ms with
      | none => none
      | some lastMatch =>
        if lastMatch = "" ∨ lastMatch = "/" then
          collectRoutes finalMatch rts (methods ++ [rt.Method])
        else
          collectRoutes finalMatch rts methods

/-- The outer loop of `computeAllowedMethods`, over the registered web services. -/
def collectServices (requestPath : String) : List WebService → List String → Option (List String)
  | [], methods => some methods
  | ws :: wss, methods =>
    match ws.pathExpr.Matcher.FindStringSubmatch requestPath with
    | none => collectServices requestPath wss methods
    | some ms =>
      match lastIndex ms with
      | none => none
      | some finalMatch =>
        match collectRoutes finalMatch ws.Routes methods with
        | none => none
        | some methods1 => collectServices requestPath wss methods1

/-- The final loop of `computeAllowedMethods`: write `","` and the method, for each method. -/
def writeMethods (buf : String) : List String → String
  | [] => buf
  | m :: ms => writeMethods ((buf ++ ",") ++ m) ms

/-- Go `computeAllowedMethods(req)`, with the registered web services as an argument. -/
def computeAllowedMethods (req : Request) (registered : List WebService) : Option String :=
  match collectServices req.Request.URL.Path registered [] with
  | none => none
  | some methods => some (writeMethods "OPTIONS" methods)

/-- Go `c.setAllowOriginHeader(req, resp)`. -/
def setAllowOriginHeader (_c : CrossOriginResourceSharing) (req : Request) (t : Trace) : Trace :=
  let origin := req.Request.Header.Get "Origin"
  AddHeader t "Access-Control-Allow-Origin" origin

/-- Go `c.doActualRequest(req, resp, chain)`. -/
def doActualRequest (c : CrossOriginResourceSharing) (req : Request) (t : Trace) : Trace :=
  let t1 := AddHeader t "Access-Control-Expose-Headers" "Content-Type, Accept"
  let t2 := setAllowOriginHeader c req t1
  ProcessFilter t2

/-- Go `c.doPreflightRequest(req, resp, chain)`. -/
def doPreflightRequest (c : CrossOriginResourceSharing) (req : Request)
    (registered : List WebService) (t : Trace) : Option Trace :=
  if isValidAccessControlRequestMethod c req.Request.Method = false then
    some (ProcessFilter t)
  else
    let acrh := req.Request.Header.Get "Access-Control-Request-Header"
    if acrh ≠ "" ∧ isValidAccessControlRequestHeader c acrh = false then
      some (ProcessFilter t)
    else
      match computeAllowedMethods req registered with
      | none => none
      | some allowed =>
        let t1 := AddHeader t "Access-Control-Allow-Methods" allowed
        let t2 := AddHeader t1 "Access-Control-Allow-Headers" "Content-Type, Accept"
        some (setAllowOriginHeader c req t2)

/-- Go `c.Filter(req, resp, chain)`. -/
def Filter (c : CrossOriginResourceSharing) (req : Request)
    (registered : List WebService) (t : Trace) : Option Trace :=
  if req.Request.Header.Get "Origin" ≠ "" then
    some (ProcessFilter t)
  else if "OPTIONS" ≠ req.Request.Method then
    some (doActualRequest c req t)
  else if req.Request.Header.Get "Access-Control-Request-Method" ≠ "" then
    doPreflightRequest c req registered t
  else
    some t

/-! ## The contract of the regular-expression library

`FindStringSubmatch` returns `nil` or a slice that holds the whole match first, hence at
least one element. -/

/-- A matcher never answers with an empty, non-nil slice of submatches. -/
def Regexp.WellFormed (m : Regexp) : Prop :=
  ∀ s, m.FindStringSubmatch s ≠ some []

/-- Every matcher of the route table obeys the contract of `FindStringSubmatch`. -/
def RouteTableOK (registered : List WebService) : Prop :=
  ∀ ws ∈ registered, ws.pathExpr.Matcher.WellFormed ∧
    ∀ rt ∈ ws.routes, rt.pathExpr.Matcher.WellFormed

/-! ## The allowed methods, as the specification words them -/

/-- Specification: the route's path pattern matches `finalMatch` with a final capture group
equal to `""` or `"/"`. -/
def routeQualifies (finalMatch : String) (rt : Route) : Bool :=
  match rt.pathExpr.Matcher.FindStringSubmatch finalMatch with
  | none => false
  | some ms => decide (ms.getLast? = some "" ∨ ms.getLast? = some "/")

/-- Specification: the methods contributed by one service, namely none when its path pattern
does not match the request path, else the methods of its qualifying routes, in order. -/
def serviceMethods (requestPath : String) (ws : WebService) : List String :=
  match ws.pathExpr.Matcher.FindStringSubmatch requestPath with
  | none => []
  | some ms =>
    match ms.getLast? with
    | none => []
    | some finalMatch => (ws.routes.filter (routeQualifies finalMatch)).map Route.Method

/-- Specification: the collected methods, services in registration order, not deduplicated. -/
def collectedMethods (requestPath : String) : List WebService → List String
  | [] => []
  | ws :: wss => serviceMethods requestPath ws ++ collectedMethods requestPath wss

/-- Specification: `","` followed by the method, for each method in turn. -/
def commaSeparated : List String → String
  | [] => ""
  | m :: ms => ("," ++ m) ++ commaSeparated ms

/-- Specification: the value of `Access-Control-Allow-Methods`. -/
def allowedMethodsSpec (requestPath : String) (registered : List WebService) : String :=
  "OPTIONS" ++ commaSeparated (collectedMethods requestPath registered)

/-! ## Sample requests and route tables -/

/-- Modelled from the spec: the path-matching expression of a literal path template (the
compiler of path expressions, `path_expression.go`, is not among the sources).  The template
must be followed by nothing or by a remainder that starts with `/`; the submatches are the
whole match and, as final capture group, that remainder. -/
def literalPath (template : String) : Regexp where
  FindStringSubmatch := fun s =>
    if template.data.isPrefixOf s.data then
      match s.data.drop template.data.length with
      | [] => some [s, ""]
      | d :: rest =>
        if d = '/' ∧ rest.all (fun e => e != '\n') then some [s, String.mk (d :: rest)] else none
    else none

/-- A web service rooted at `/users` with the routes `GET /users` and `POST /users`. -/
def usersService : WebService where
  pathExpr := ⟨literalPath "/users"⟩
  routes := [⟨"GET", ⟨literalPath ""⟩⟩, ⟨"POST", ⟨literalPath ""⟩⟩]

/-- A filter configuration. -/
def corsDefault : CrossOriginResourceSharing := ⟨false, false⟩

/-- A `GET /users` that carries an `Origin` header. -/
def crossOriginGet : Request :=
  ⟨⟨"GET", [("Origin", ["http://example.org"])], ⟨"/users"⟩⟩⟩

/-- A `GET /users` without an `Origin` header. -/
def plainGet : Request :=
  ⟨⟨"GET", [], ⟨"/users"⟩⟩⟩

/-- An `OPTIONS /users` preflight asking for `POST`. -/
def usersPreflight : Request :=
  ⟨⟨"OPTIONS", [("Access-Control-Request-Method", ["POST"])], ⟨"/users"⟩⟩⟩

/-- An `OPTIONS /users` preflight asking for `TRACE`, a method outside the allow-list. -/
def tracePreflight : Request :=
  ⟨⟨"OPTIONS", [("Access-Control-Request-Method", ["TRACE"])], ⟨"/users"⟩⟩⟩

/-- An `OPTIONS /users` whose only header is an `Access-Control-Request-Header` outside the
allowed ones. -/
def invalidHeaderOptions : Request :=
  ⟨⟨"OPTIONS", [("Access-Control-Request-Header", ["X-Requested-With"])], ⟨"/users"⟩⟩⟩

/-- An `OPTIONS /users` without any header. -/
def bareOptions : Request :=
  ⟨⟨"OPTIONS", [], ⟨"/users"⟩⟩⟩

/-- An `OPTIONS /users` with neither `Origin` nor `Access-Control-Request-Method`. -/
def acceptOptions : Request :=
  ⟨⟨"OPTIONS", [("Accept", ["*/*"])], ⟨"/users"⟩⟩⟩

/-- A filter configuration with both flags set. -/
def corsAllFlags : CrossOriginResourceSharing := ⟨true, true⟩

/-- A matcher that breaks the contract of `FindStringSubmatch`: it reports a match with an
empty slice of submatches. -/
def emptyMatch : Regexp where
  FindStringSubmatch := fun _ => some []

/-- A web service whose path matcher breaks the contract of `FindStringSubmatch`. -/
def emptyMatchService : WebService where
  pathExpr := ⟨emptyMatch⟩
  routes := []

/-! ## Auxiliary lemmas -/

theorem containsChars_iff (l substr : List Char) :
    containsChars l substr = true ↔ substr <:+: l := by
  induction l with
  | nil => simp [containsChars]
  | cons c cs ih =>
    simp only [containsChars, Bool.or_eq_true, ih, List.isPrefixOf_iff_prefix]
    exact List.infix_cons_iff.symm

theorem strings_Contains_iff (s substr : String) :
    strings.Contains s substr = true ↔ substr.data <:+: s.data :=
  containsChars_iff s.data substr.data

theorem lastIndex_of_ne_nil {ms : List String} (h : ms ≠ []) :
    ∃ x, lastIndex ms = some x := by
  cases hl : lastIndex ms with
  | some x => exact ⟨x, rfl⟩
  | none => exact absurd (List.getLast?_eq_none_iff.mp hl) h

theorem collectRoutes_eq (finalMatch : String) (rts : List Route)
    (hrts : ∀ rt ∈ rts, rt.pathExpr.Matcher.WellFormed) (methods : List String) :
    collectRoutes finalMatch rts methods
      = some (methods ++ (rts.filter (routeQualifies finalMatch)).map Route.Method) := by
  induction rts generalizing methods with
  | nil => simp [collectRoutes]
  | cons rt rts ih =>
    have hrt := hrts rt (List.mem_cons_self _ _)
    have ih1 := ih (fun r hr => hrts r (List.mem_cons_of_mem _ hr))
    unfold collectRoutes
    cases hm : rt.pathExpr.Matcher.FindStringSubmatch finalMatch with
    | none => simp [ih1, List.filter_cons, routeQualifies, hm]
    | some ms =>
      obtain ⟨x, hx⟩ := lastIndex_of_ne_nil (fun h0 => hrt finalMatch (h0 ▸ hm))
      have hx1 : ms.getLast? = some x := hx
      by_cases hq : x = "" ∨ x = "/"
      · simp [hx, hq, ih1, List.filter_cons, routeQualifies, hm, hx1]
      · simp [hx, hq, ih1, List.filter_cons, routeQualifies, hm, hx1]

theorem collectServices_eq (requestPath : String) (registered : List WebService)
    (hok : RouteTableOK registered) (methods : List String) :
    collectServices requestPath registered methods
      = some (methods ++ collectedMethods requestPath registered) := by
  induction registered generalizing methods with
  | nil => simp [collectServices, collectedMethods]
  | cons ws wss ih =>
    have hws := hok ws (List.mem_cons_self _ _)
    have ih1 := ih (fun w hw => hok w (List.mem_cons_of_mem _ hw))
    unfold collectServices
    cases hm : ws.pathExpr.Matcher.FindStringSubmatch requestPath with
    | none => simp [ih1, collectedMethods, serviceMethods, hm]
    | some ms =>
      obtain ⟨x, hx⟩ := lastIndex_of_ne_nil (fun h0 => hws.1 requestPath (h0 ▸ hm))
      have hx1 : ms.getLast? = some x := hx
      have hr := collectRoutes_eq x ws.routes hws.2 methods
      simp [hx, hr, ih1, collectedMethods, serviceMethods, hm, hx1, WebService.Routes]

theorem writeMethods_eq (buf : String) (methods : List String) :
    writeMethods buf methods = buf ++ commaSeparated methods := by
  induction methods generalizing buf with
  | nil => simp [writeMethods, commaSeparated]
  | cons m ms ih => simp [writeMethods, commaSeparated, ih, String.append_assoc]

theorem computeAllowedMethods_eq (req : Request) (registered : List WebService)
    (hok : RouteTableOK registered) :
    computeAllowedMethods req registered
      = some (allowedMethodsSpec req.Request.URL.Path registered) := by
  simp [computeAllowedMethods, collectServices_eq _ _ hok, writeMethods_eq, allowedMethodsSpec]

theorem collectedMethods_eq_nil (requestPath : String) (registered : List WebService)
    (hnone : ∀ ws ∈ registered, serviceMethods requestPath ws = []) :
    collectedMethods requestPath registered = [] := by
  induction registered with
  | nil => rfl
  | cons ws wss ih =>
    simp [collectedMethods, hnone ws (List.mem_cons_self _ _),
      ih (fun w hw => hnone w (List.mem_cons_of_mem _ hw))]

theorem literalPath_wellFormed (template : String) : (literalPath template).WellFormed := by
  intro s
  simp only [literalPath]
  split
  · split
    · simp
    · split <;> simp
  · simp

theorem usersService_ok : RouteTableOK [usersService] := by
  intro ws hws
  simp only [List.mem_singleton] at hws
  subst hws
  refine ⟨literalPath_wellFormed _, ?_⟩
  intro rt hrt
  simp only [usersService, List.mem_cons, List.mem_singleton, List.not_mem_nil, or_false] at hrt
  rcases hrt with h | h <;> subst h <;> exact literalPath_wellFormed _

theorem serviceMethods_eq_nil (requestPath : String) (ws : WebService)
    (hnone : ∀ ms finalMatch, ws.pathExpr.Matcher.FindStringSubmatch requestPath = some ms →
      ms.getLast? = some finalMatch → ∀ rt ∈ ws.routes, routeQualifies finalMatch rt = false) :
    serviceMethods requestPath ws = [] := by
  cases hm : ws.pathExpr.Matcher.FindStringSubmatch requestPath with
  | none => simp [serviceMethods, hm]
  | some ms =>
    cases hl : ms.getLast? with
    | none => simp [serviceMethods, hm, hl]
    | some finalMatch =>
      have hq := hnone ms finalMatch hm hl
      simp only [serviceMethods, hm, hl, List.map_eq_nil_iff, List.filter_eq_nil_iff]
      intro rt hrt
      simp [hq rt hrt]

theorem toLower_toUpper_below (n : Nat) (hn : n < 128) :
    Char.toLower (Char.toUpper (Char.ofNat n)) = Char.toLower (Char.ofNat n) := by
  revert n
  decide

theorem toLower_toLower_below (n : Nat) (hn : n < 128) :
    Char.toLower (Char.toLower (Char.ofNat n)) = Char.toLower (Char.ofNat n) := by
  revert n
  decide

theorem ToLower_ToUpper_of_isASCII (h : String) (hascii : isASCII h = true) :
    strings.ToLower (strings.ToUpper h) = strings.ToLower h := by
  simp only [isASCII, List.all_eq_true, decide_eq_true_eq] at hascii
  simp only [strings.ToLower, strings.ToUpper, List.map_map]
  congr 1
  apply List.map_congr_left
  intro ch hch
  simp only [Function.comp_apply]
  have hlt := hascii ch hch
  have hch1 : ch = Char.ofNat ch.toNat := (Char.ofNat_toNat ch).symm
  rw [hch1]
  exact toLower_toUpper_below ch.toNat hlt

theorem ToLower_ToLower_of_isASCII (h : String) (hascii : isASCII h = true) :
    strings.ToLower (strings.ToLower h) = strings.ToLower h := by
  simp only [isASCII, List.all_eq_true, decide_eq_true_eq] at hascii
  simp only [strings.ToLower, List.map_map]
  congr 1
  apply List.map_congr_left
  intro ch hch
  simp only [Function.comp_apply]
  have hlt := hascii ch hch
  have hch1 : ch = Char.ofNat ch.toNat := (Char.ofNat_toNat ch).symm
  rw [hch1]
  exact toLower_toLower_below ch.toNat hlt

theorem doPreflightRequest_shapes (c : CrossOriginResourceSharing) (req : Request)
    (registered : List WebService) (t t1 : Trace)
    (hrun : doPreflightRequest c req registered t = some t1) :
    t1 = t ++ [Effect.processFilter] ∨
      ∃ allowed, t1 = t ++
        [Effect.addHeader "Access-Control-Allow-Methods" allowed,
         Effect.addHeader "Access-Control-Allow-Headers" "Content-Type, Accept",
         Effect.addHeader "Access-Control-Allow-Origin" (req.Request.Header.Get "Origin")] := by
  by_cases hv : isValidAccessControlRequestMethod c req.Request.Method = false
  · left
    simpa [doPreflightRequest, hv, ProcessFilter] using hrun.symm
  · by_cases hg : req.Request.Header.Get "Access-Control-Request-Header" ≠ "" ∧
        isValidAccessControlRequestHeader c
          (req.Request.Header.Get "Access-Control-Request-Header") = false
    · left
      simpa [doPreflightRequest, hv, hg, ProcessFilter] using hrun.symm
    · right
      cases hcam : computeAllowedMethods req registered with
      | none => simp [doPreflightRequest, hv, hg, hcam] at hrun
      | some allowed =>
        refine ⟨allowed, ?_⟩
        simpa [doPreflightRequest, hv, hg, hcam, setAllowOriginHeader, AddHeader]
          using hrun.symm

/-- The four shapes of a completed run of `Filter`: forwarded untouched, actual request,
answered preflight, no action.  On the two shapes that carry `Access-Control-Allow-Origin`
the `Origin` header of the request is empty. -/
theorem Filter_shapes (c : CrossOriginResourceSharing) (req : Request)
    (registered : List WebService) (t t1 : Trace)
    (hrun : Filter c req registered t = some t1) :
    t1 = t ++ [Effect.processFilter] ∨
      (req.Request.Header.Get "Origin" = "" ∧ t1 = t ++
        [Effect.addHeader "Access-Control-Expose-Headers" "Content-Type, Accept",
         Effect.addHeader "Access-Control-Allow-Origin" "",
         Effect.processFilter]) ∨
      (req.Request.Header.Get "Origin" = "" ∧ ∃ allowed, t1 = t ++
        [Effect.addHeader "Access-Control-Allow-Methods" allowed,
         Effect.addHeader "Access-Control-Allow-Headers" "Content-Type, Accept",
         Effect.addHeader "Access-Control-Allow-Origin" ""]) ∨
      t1 = t ++ [] := by
  by_cases horigin : req.Request.Header.Get "Origin" = ""
  · by_cases hmethod : "OPTIONS" = req.Request.Method
    · by_cases hacrm : req.Request.Header.Get "Access-Control-Request-Method" = ""
      · right; right; right
        simpa [Filter, horigin, hmethod, hacrm] using hrun.symm
      · have hpre : doPreflightRequest c req registered t = some t1 := by
          simpa [Filter, horigin, hmethod, hacrm] using hrun
        rcases doPreflightRequest_shapes c req registered t t1 hpre with h | ⟨allowed, h⟩
        · exact Or.inl h
        · rw [horigin] at h
          exact Or.inr (Or.inr (Or.inl ⟨horigin, allowed, h⟩))
    · refine Or.inr (Or.inl ⟨horigin, ?_⟩)
      simpa [Filter, horigin, hmethod, doActualRequest, setAllowOriginHeader, AddHeader,
        ProcessFilter] using hrun.symm
  · exact Or.inl (by simpa [Filter, horigin, ProcessFilter] using hrun.symm)

theorem doPreflightRequest_total (c : CrossOriginResourceSharing) (req : Request)
    (registered : List WebService) (t : Trace) (hok : RouteTableOK registered) :
    ∃ t1, doPreflightRequest c req registered t = some t1 := by
  by_cases hv : isValidAccessControlRequestMethod c req.Request.Method = false
  · exact ⟨ProcessFilter t, by simp [doPreflightRequest, hv]⟩
  · by_cases hg : req.Request.Header.Get "Access-Control-Request-Header" ≠ "" ∧
        isValidAccessControlRequestHeader c
          (req.Request.Header.Get "Access-Control-Request-Header") = false
    · exact ⟨ProcessFilter t, by simp [doPreflightRequest, hv, hg]⟩
    · exact ⟨_, by
        simp only [doPreflightRequest, hv, hg, computeAllowedMethods_eq req registered hok]
        rfl⟩

theorem Filter_total (c : CrossOriginResourceSharing) (req : Request)
    (registered : List WebService) (t : Trace) (hok : RouteTableOK registered) :
    ∃ t1, Filter c req registered t = some t1 := by
  unfold Filter
  split
  · exact ⟨_, rfl⟩
  · split
    · exact ⟨_, rfl⟩
    · split
      · exact doPreflightRequest_total c req registered t hok
      · exact ⟨_, rfl⟩

theorem emptyMatchService_not_ok : ¬ RouteTableOK [emptyMatchService] := by
  intro h
  exact (h emptyMatchService (List.mem_singleton.mpr rfl)).1 "/users" rfl

theorem computeAllowedMethods_emptyMatch :
    computeAllowedMethods usersPreflight [emptyMatchService] = none := by
  decide

/-! ## The decision logic of `Filter` -/

/-- C1: on a request whose `Origin` header is non-empty, whatever its method, its other
headers and the route table, `Filter` appends no header and calls the next filter of the
chain exactly once: the only effect added to the trace is one `processFilter`. -/
theorem Filter_origin_forwards (c : CrossOriginResourceSharing) (req : Request)
    (registered : List WebService) (t : Trace)
    (horigin : req.Request.Header.Get "Origin" ≠ "") :
    Filter c req registered t = some (t ++ [Effect.processFilter]) := by
  simp [Filter, horigin, ProcessFilter]

theorem Filter_origin_forwards_witness :
    crossOriginGet.Request.Header.Get "Origin" ≠ "" ∧
      Filter corsDefault crossOriginGet [usersService] [] = some [Effect.processFilter] :=
  ⟨by decide, Filter_origin_forwards corsDefault crossOriginGet [usersService] [] (by decide)⟩

/-- C2: on a request with an empty or absent `Origin` header and a method other than
`OPTIONS`, `Filter` appends exactly two headers, `Access-Control-Expose-Headers` with value
`Content-Type, Accept` and then `Access-Control-Allow-Origin` with the empty value, and after
them calls the next filter exactly once. -/
theorem Filter_actual_request (c : CrossOriginResourceSharing) (req : Request)
    (registered : List WebService) (t : Trace)
    (horigin : req.Request.Header.Get "Origin" = "")
    (hmethod : req.Request.Method ≠ "OPTIONS") :
    Filter c req registered t = some (t ++
      [Effect.addHeader "Access-Control-Expose-Headers" "Content-Type, Accept",
       Effect.addHeader "Access-Control-Allow-Origin" "",
       Effect.processFilter]) := by
  have hm : ¬ ("OPTIONS" = req.Request.Method) := fun h => hmethod h.symm
  simp [Filter, horigin, hm, doActualRequest, setAllowOriginHeader, AddHeader, ProcessFilter]

theorem Filter_actual_request_witness :
    plainGet.Request.Header.Get "Origin" = "" ∧ plainGet.Request.Method ≠ "OPTIONS" ∧
      Filter corsDefault plainGet [usersService] [] = some
        [Effect.addHeader "Access-Control-Expose-Headers" "Content-Type, Accept",
         Effect.addHeader "Access-Control-Allow-Origin" "",
         Effect.processFilter] :=
  ⟨by decide, by decide,
    Filter_actual_request corsDefault plainGet [usersService] [] (by decide) (by decide)⟩

/-- C3: on an `OPTIONS` request with an empty `Origin` header, a non-empty
`Access-Control-Request-Method` header and an `Access-Control-Request-Header` that is empty,
absent or valid, `computeAllowedMethods` returns a value and `Filter` appends exactly three
headers, in this order: `Access-Control-Allow-Methods` with that value,
`Access-Control-Allow-Headers` with `Content-Type, Accept`, and `Access-Control-Allow-Origin`
with the value of the request's `Origin` header; the next filter is not called. -/
theorem Filter_preflight_accepted (c : CrossOriginResourceSharing) (req : Request)
    (registered : List WebService) (t : Trace)
    (hok : RouteTableOK registered)
    (hmethod : req.Request.Method = "OPTIONS")
    (horigin : req.Request.Header.Get "Origin" = "")
    (hacrm : req.Request.Header.Get "Access-Control-Request-Method" ≠ "")
    (hacrh : req.Request.Header.Get "Access-Control-Request-Header" = "" ∨
      isValidAccessControlRequestHeader c
        (req.Request.Header.Get "Access-Control-Request-Header") = true) :
    ∃ allowed, computeAllowedMethods req registered = some allowed ∧
      Filter c req registered t = some (t ++
        [Effect.addHeader "Access-Control-Allow-Methods" allowed,
         Effect.addHeader "Access-Control-Allow-Headers" "Content-Type, Accept",
         Effect.addHeader "Access-Control-Allow-Origin" (req.Request.Header.Get "Origin")]) := by
  refine ⟨_, computeAllowedMethods_eq req registered hok, ?_⟩
  have hvalid : isValidAccessControlRequestMethod c "OPTIONS" = true := by
    unfold isValidAccessControlRequestMethod
    decide
  have hguard : ¬ (req.Request.Header.Get "Access-Control-Request-Header" ≠ "" ∧
      isValidAccessControlRequestHeader c
        (req.Request.Header.Get "Access-Control-Request-Header") = false) := by
    rintro ⟨h1, h2⟩
    rcases hacrh with h | h
    · exact h1 h
    · rw [h] at h2
      exact Bool.noConfusion h2
  simp [Filter, horigin, hmethod, hacrm, doPreflightRequest, hvalid, hguard,
    computeAllowedMethods_eq req registered hok, setAllowOriginHeader, AddHeader]

theorem Filter_preflight_accepted_witness :
    RouteTableOK [usersService] ∧ usersPreflight.Request.Method = "OPTIONS" ∧
      usersPreflight.Request.Header.Get "Origin" = "" ∧
      usersPreflight.Request.Header.Get "Access-Control-Request-Method" = "POST" ∧
      usersPreflight.Request.Header.Get "Access-Control-Request-Header" = "" ∧
      computeAllowedMethods usersPreflight [usersService] = some "OPTIONS,GET,POST" ∧
      Filter corsDefault usersPreflight [usersService] [] = some
        [Effect.addHeader "Access-Control-Allow-Methods" "OPTIONS,GET,POST",
         Effect.addHeader "Access-Control-Allow-Headers" "Content-Type, Accept",
         Effect.addHeader "Access-Control-Allow-Origin" ""] := by
  obtain ⟨allowed, h1, h2⟩ := Filter_preflight_accepted corsDefault usersPreflight
    [usersService] [] usersService_ok (by decide) (by decide) (by decide) (Or.inl (by decide))
  have hval : computeAllowedMethods usersPreflight [usersService] = some "OPTIONS,GET,POST" := by
    decide
  have hallowed : allowed = "OPTIONS,GET,POST" := Option.some.inj (h1.symm.trans hval)
  subst hallowed
  exact ⟨usersService_ok, by decide, by decide, by decide, by decide, hval, h2⟩

/-- C4: when every matcher of the route table obeys the contract of `FindStringSubmatch`,
`computeAllowedMethods` returns `OPTIONS` followed by `","` and the method for each collected
method, the collected methods being those of the specification (`collectedMethods`: services
in order, routes in order, no deduplication, a route counting when its service matches the
request path and the route matches the final capture group of that match with a final capture
group `""` or `"/"`); the result begins with `OPTIONS`, and is exactly `OPTIONS` when no
route qualifies. -/
theorem computeAllowedMethods_spec (req : Request) (registered : List WebService)
    (hok : RouteTableOK registered) :
    computeAllowedMethods req registered
        = some ("OPTIONS" ++ commaSeparated (collectedMethods req.Request.URL.Path registered)) ∧
      (∃ s, computeAllowedMethods req registered = some s ∧ "OPTIONS".data <+: s.data) ∧
      ((∀ ws ∈ registered, ∀ ms finalMatch,
          ws.pathExpr.Matcher.FindStringSubmatch req.Request.URL.Path = some ms →
          ms.getLast? = some finalMatch →
          ∀ rt ∈ ws.routes, routeQualifies finalMatch rt = false) →
        computeAllowedMethods req registered = some "OPTIONS") := by
  have h := computeAllowedMethods_eq req registered hok
  refine ⟨h, ⟨_, h, ?_⟩, ?_⟩
  · simp [allowedMethodsSpec, String.data_append]
  · intro hnone
    rw [h, allowedMethodsSpec, collectedMethods_eq_nil _ _
      (fun ws hws => serviceMethods_eq_nil _ ws (hnone ws hws))]
    rfl

theorem computeAllowedMethods_spec_witness :
    RouteTableOK [usersService] ∧
      collectedMethods usersPreflight.Request.URL.Path [usersService] = ["GET", "POST"] ∧
      computeAllowedMethods usersPreflight [usersService] = some "OPTIONS,GET,POST" := by
  have h := (computeAllowedMethods_spec usersPreflight [usersService] usersService_ok).1
  have hc : collectedMethods usersPreflight.Request.URL.Path [usersService] = ["GET", "POST"] := by
    decide
  rw [hc] at h
  exact ⟨usersService_ok, hc, h⟩

/-- C5: evaluation of `Filter` on an `OPTIONS` request without `Origin` that asks for `TRACE`.
The requested method is outside the allow-list, yet the request is answered as an accepted
preflight: three headers are appended and the next filter is not called, because
`doPreflightRequest` validates the HTTP method of the request, which is `OPTIONS` on this
path, and not the value of `Access-Control-Request-Method`. -/
theorem Filter_trace_preflight_answered :
    tracePreflight.Request.Method = "OPTIONS" ∧
      tracePreflight.Request.Header.Get "Origin" = "" ∧
      tracePreflight.Request.Header.Get "Access-Control-Request-Method" = "TRACE" ∧
      isValidAccessControlRequestMethod corsDefault "TRACE" = false ∧
      Filter corsDefault tracePreflight [usersService] [] = some
        [Effect.addHeader "Access-Control-Allow-Methods" "OPTIONS,GET,POST",
         Effect.addHeader "Access-Control-Allow-Headers" "Content-Type, Accept",
         Effect.addHeader "Access-Control-Allow-Origin" ""] := by
  decide

/-- C6: evaluation of `Filter` on an `OPTIONS` request that carries the invalid
`Access-Control-Request-Header` value `X-Requested-With` and neither `Origin` nor
`Access-Control-Request-Method`: nothing is appended and the next filter is not called. -/
theorem Filter_invalid_header_not_forwarded :
    invalidHeaderOptions.Request.Method = "OPTIONS" ∧
      invalidHeaderOptions.Request.Header.Get "Access-Control-Request-Header"
        = "X-Requested-With" ∧
      isValidAccessControlRequestHeader corsDefault "X-Requested-With" = false ∧
      Filter corsDefault invalidHeaderOptions [usersService] [] = some [] := by
  decide

/-- C7: evaluation of `Filter` on an `OPTIONS` request without any header, hence without
`Access-Control-Request-Method`: nothing is appended, and the next filter is not called. -/
theorem Filter_bare_options_not_forwarded :
    bareOptions.Request.Method = "OPTIONS" ∧
      bareOptions.Request.Header.Get "Access-Control-Request-Method" = "" ∧
      Filter corsDefault bareOptions [usersService] [] = some [] ∧
      Filter corsDefault bareOptions [usersService] [] ≠ some [Effect.processFilter] := by
  decide

/-- C8: on an `OPTIONS` request with an empty `Origin` header and an empty or absent
`Access-Control-Request-Method` header, `Filter` does nothing: the trace of effects is returned
as it was, so no header is appended and the next filter is not called. -/
theorem Filter_options_noop (c : CrossOriginResourceSharing) (req : Request)
    (registered : List WebService) (t : Trace)
    (hmethod : req.Request.Method = "OPTIONS")
    (horigin : req.Request.Header.Get "Origin" = "")
    (hacrm : req.Request.Header.Get "Access-Control-Request-Method" = "") :
    Filter c req registered t = some t := by
  simp [Filter, horigin, hmethod, hacrm]

theorem Filter_options_noop_witness :
    acceptOptions.Request.Method = "OPTIONS" ∧
      acceptOptions.Request.Header.Get "Origin" = "" ∧
      acceptOptions.Request.Header.Get "Access-Control-Request-Method" = "" ∧
      Filter corsDefault acceptOptions [usersService]
          [Effect.addHeader "Content-Type" "application/json"]
        = some [Effect.addHeader "Content-Type" "application/json"] :=
  ⟨by decide, by decide, by decide,
    Filter_options_noop corsDefault acceptOptions [usersService]
      [Effect.addHeader "Content-Type" "application/json"] (by decide) (by decide) (by decide)⟩

/-! ## The two validation helpers -/

/-- C9: `isValidAccessControlRequestMethod m` holds exactly when `m` occurs as a contiguous
substring of `GET PUT POST DELETE HEAD OPTIONS PATCH`.  Being a containment check, it accepts
each listed method, and also `ET` and the empty string; it rejects `TRACE`. -/
theorem isValidAccessControlRequestMethod_iff (c : CrossOriginResourceSharing) :
    (∀ m : String, isValidAccessControlRequestMethod c m = true ↔
        m.data <:+: "GET PUT POST DELETE HEAD OPTIONS PATCH".data) ∧
      isValidAccessControlRequestMethod c "GET" = true ∧
      isValidAccessControlRequestMethod c "PUT" = true ∧
      isValidAccessControlRequestMethod c "POST" = true ∧
      isValidAccessControlRequestMethod c "DELETE" = true ∧
      isValidAccessControlRequestMethod c "HEAD" = true ∧
      isValidAccessControlRequestMethod c "OPTIONS" = true ∧
      isValidAccessControlRequestMethod c "PATCH" = true ∧
      isValidAccessControlRequestMethod c "ET" = true ∧
      isValidAccessControlRequestMethod c "" = true ∧
      isValidAccessControlRequestMethod c "TRACE" = false := by
  refine ⟨fun m => strings_Contains_iff _ m, ?_⟩
  unfold isValidAccessControlRequestMethod
  decide

/-- C10: `isValidAccessControlRequestHeader x` holds exactly when the lower-cased form of `x`
is a contiguous substring of `accept content-type`.  The check is case-insensitive: an ASCII
header `h`, its upper-cased form and its lower-cased form get the same verdict.
`Content-Type`, `ACCEPT` and `accept` are accepted, `X-Requested-With` is rejected. -/
theorem isValidAccessControlRequestHeader_iff (c : CrossOriginResourceSharing) (h : String)
    (hascii : isASCII h = true) :
    (∀ x : String, isValidAccessControlRequestHeader c x = true ↔
        (strings.ToLower x).data <:+: "accept content-type".data) ∧
      isValidAccessControlRequestHeader c (strings.ToUpper h)
        = isValidAccessControlRequestHeader c h ∧
      isValidAccessControlRequestHeader c (strings.ToLower h)
        = isValidAccessControlRequestHeader c h ∧
      isValidAccessControlRequestHeader c "Content-Type" = true ∧
      isValidAccessControlRequestHeader c "ACCEPT" = true ∧
      isValidAccessControlRequestHeader c "accept" = true ∧
      isValidAccessControlRequestHeader c "X-Requested-With" = false := by
  refine ⟨fun x => strings_Contains_iff _ _, ?_, ?_, ?_⟩
  · simp only [isValidAccessControlRequestHeader, ToLower_ToUpper_of_isASCII h hascii]
  · simp only [isValidAccessControlRequestHeader, ToLower_ToLower_of_isASCII h hascii]
  · unfold isValidAccessControlRequestHeader
    decide

theorem isValidAccessControlRequestHeader_iff_witness :
    isASCII "Content-Type" = true ∧
      strings.ToUpper "Content-Type" = "CONTENT-TYPE" ∧
      strings.ToLower "Content-Type" = "content-type" ∧
      isValidAccessControlRequestHeader corsDefault "CONTENT-TYPE"
        = isValidAccessControlRequestHeader corsDefault "Content-Type" ∧
      isValidAccessControlRequestHeader corsDefault "content-type"
        = isValidAccessControlRequestHeader corsDefault "Content-Type" :=
  ⟨by decide, by decide, by decide,
    (isValidAccessControlRequestHeader_iff corsDefault "Content-Type" (by decide)).2.1,
    (isValidAccessControlRequestHeader_iff corsDefault "Content-Type" (by decide)).2.2.1⟩

/-! ## Properties of every run -/

/-- C11: the configuration flags `ExposeHeaders` and `CookiesAllowed` do not affect behaviour:
for every request, route table and trace so far, any two configurations make `Filter` append
the same headers in the same order and take the same forwarding decision, and the two
validation helpers give the same verdicts. -/
theorem Filter_ignores_configuration (c1 c2 : CrossOriginResourceSharing) (req : Request)
    (registered : List WebService) (t : Trace) :
    Filter c1 req registered t = Filter c2 req registered t ∧
      (∀ m, isValidAccessControlRequestMethod c1 m = isValidAccessControlRequestMethod c2 m) ∧
      (∀ h, isValidAccessControlRequestHeader c1 h = isValidAccessControlRequestHeader c2 h) :=
  ⟨rfl, fun _ => rfl, fun _ => rfl⟩

/-- C12: every `Access-Control-Allow-Origin` header appended by `Filter` has the empty string
as value, on the actual-request path and on the answered-preflight path alike, because a run
that appends one has an empty `Origin` header.  `Filter` completes on every route table whose
matchers obey the contract of `FindStringSubmatch`, and every completed run extends the trace
by effects among which each `Access-Control-Allow-Origin` carries `""`. -/
theorem Filter_allow_origin_empty (c : CrossOriginResourceSharing) (req : Request)
    (registered : List WebService) (t : Trace) :
    (RouteTableOK registered → ∃ t1, Filter c req registered t = some t1) ∧
      ∀ t1, Filter c req registered t = some t1 →
        ∃ added, t1 = t ++ added ∧
          ∀ v, Effect.addHeader "Access-Control-Allow-Origin" v ∈ added →
            v = "" ∧ req.Request.Header.Get "Origin" = "" := by
  refine ⟨Filter_total c req registered t, ?_⟩
  intro t1 hrun
  rcases Filter_shapes c req registered t t1 hrun with h | ⟨ho, h⟩ | ⟨ho, allowed, h⟩ | h
  · exact ⟨_, h, by simp⟩
  · refine ⟨_, h, ?_⟩
    intro v hv
    simp only [List.mem_cons, Effect.addHeader.injEq, List.mem_singleton, reduceCtorEq,
      List.not_mem_nil, or_false] at hv
    rcases hv with hv | hv
    · exact absurd hv.1 (by decide)
    · exact ⟨hv.2, ho⟩
  · refine ⟨_, h, ?_⟩
    intro v hv
    simp only [List.mem_cons, Effect.addHeader.injEq, List.mem_singleton,
      List.not_mem_nil, or_false] at hv
    rcases hv with hv | hv | hv
    · exact absurd hv.1 (by decide)
    · exact absurd hv.1 (by decide)
    · exact ⟨hv.2, ho⟩
  · exact ⟨_, h, by simp⟩

theorem Filter_allow_origin_empty_witness :
    Filter corsDefault plainGet [usersService] [] = some
        [Effect.addHeader "Access-Control-Expose-Headers" "Content-Type, Accept",
         Effect.addHeader "Access-Control-Allow-Origin" "",
         Effect.processFilter] ∧
      ∃ added,
        [Effect.addHeader "Access-Control-Expose-Headers" "Content-Type, Accept",
         Effect.addHeader "Access-Control-Allow-Origin" "",
         Effect.processFilter] = [] ++ added ∧
          ∀ v, Effect.addHeader "Access-Control-Allow-Origin" v ∈ added →
            v = "" ∧ plainGet.Request.Header.Get "Origin" = "" :=
  ⟨by decide,
    (Filter_allow_origin_empty corsDefault plainGet [usersService] []).2 _ (by decide)⟩

/-- C13: `Filter` calls the next filter at most once, and forwarding excludes the terminal
preflight answer: in every completed run, the effects added to the trace contain at most one
`processFilter`; if they contain an `Access-Control-Allow-Methods` or an
`Access-Control-Allow-Headers` header they contain no `processFilter`, and if they contain a
`processFilter` they contain neither of those headers.  `Filter` completes on every route
table whose matchers obey the contract of `FindStringSubmatch`. -/
theorem Filter_forward_excludes_answer (c : CrossOriginResourceSharing) (req : Request)
    (registered : List WebService) (t : Trace) :
    (RouteTableOK registered → ∃ t1, Filter c req registered t = some t1) ∧
      ∀ t1, Filter c req registered t = some t1 →
        ∃ added, t1 = t ++ added ∧
          added.count Effect.processFilter ≤ 1 ∧
          ((∃ v, Effect.addHeader "Access-Control-Allow-Methods" v ∈ added ∨
              Effect.addHeader "Access-Control-Allow-Headers" v ∈ added) →
            Effect.processFilter ∉ added) ∧
          (Effect.processFilter ∈ added →
            ∀ v, Effect.addHeader "Access-Control-Allow-Methods" v ∉ added ∧
              Effect.addHeader "Access-Control-Allow-Headers" v ∉ added) := by
  refine ⟨Filter_total c req registered t, ?_⟩
  intro t1 hrun
  have hAM : ¬ ("Access-Control-Allow-Methods" = "Access-Control-Expose-Headers") := by decide
  have hAM2 : ¬ ("Access-Control-Allow-Methods" = "Access-Control-Allow-Origin") := by decide
  have hAH : ¬ ("Access-Control-Allow-Headers" = "Access-Control-Expose-Headers") := by decide
  have hAH2 : ¬ ("Access-Control-Allow-Headers" = "Access-Control-Allow-Origin") := by decide
  rcases Filter_shapes c req registered t t1 hrun with h | ⟨_, h⟩ | ⟨_, allowed, h⟩ | h
  · exact ⟨_, h, by simp⟩
  · exact ⟨_, h, by simp [hAM, hAM2, hAH, hAH2]⟩
  · exact ⟨_, h, by simp⟩
  · exact ⟨_, h, by simp⟩

theorem Filter_forward_excludes_answer_witness :
    Filter corsDefault usersPreflight [usersService] [] = some
        [Effect.addHeader "Access-Control-Allow-Methods" "OPTIONS,GET,POST",
         Effect.addHeader "Access-Control-Allow-Headers" "Content-Type, Accept",
         Effect.addHeader "Access-Control-Allow-Origin" ""] ∧
      ∃ added,
        [Effect.addHeader "Access-Control-Allow-Methods" "OPTIONS,GET,POST",
         Effect.addHeader "Access-Control-Allow-Headers" "Content-Type, Accept",
         Effect.addHeader "Access-Control-Allow-Origin" ""] = [] ++ added ∧
          added.count Effect.processFilter ≤ 1 ∧
          ((∃ v, Effect.addHeader "Access-Control-Allow-Methods" v ∈ added ∨
              Effect.addHeader "Access-Control-Allow-Headers" v ∈ added) →
            Effect.processFilter ∉ added) ∧
          (Effect.processFilter ∈ added →
            ∀ v, Effect.addHeader "Access-Control-Allow-Methods" v ∉ added ∧
              Effect.addHeader "Access-Control-Allow-Headers" v ∉ added) :=
  ⟨by decide,
    (Filter_forward_excludes_answer corsDefault usersPreflight [usersService] []).2 _
      (by decide)⟩

/-! ## Totality of `computeAllowedMethods` -/

/-- C14: when every path matcher of the route table returns either no match or a non-empty
list of submatches, both accesses `matches[len(matches)-1]` of `computeAllowedMethods` are in
bounds, for every request path: each service match has a last element, each route match on
that element has a last element, and the function returns a string. -/
theorem computeAllowedMethods_total (req : Request) (registered : List WebService)
    (hok : RouteTableOK registered) :
    (∃ s, computeAllowedMethods req registered = some s) ∧
      ∀ ws ∈ registered, ∀ ms,
        ws.pathExpr.Matcher.FindStringSubmatch req.Request.URL.Path = some ms →
        ∃ finalMatch, lastIndex ms = some finalMatch ∧
          ∀ rt ∈ ws.Routes, ∀ ms2,
            rt.pathExpr.Matcher.FindStringSubmatch finalMatch = some ms2 →
            ∃ lastMatch, lastIndex ms2 = some lastMatch := by
  refine ⟨⟨_, computeAllowedMethods_eq req registered hok⟩, ?_⟩
  intro ws hws ms hms
  obtain ⟨hsvc, hroutes⟩ := hok ws hws
  obtain ⟨finalMatch, hfinal⟩ :=
    lastIndex_of_ne_nil (fun h0 => hsvc req.Request.URL.Path (h0 ▸ hms))
  refine ⟨finalMatch, hfinal, ?_⟩
  intro rt hrt ms2 hms2
  exact lastIndex_of_ne_nil (fun h0 => hroutes rt hrt finalMatch (h0 ▸ hms2))

theorem computeAllowedMethods_total_witness :
    RouteTableOK [usersService] ∧
      ∃ s, computeAllowedMethods usersPreflight [usersService] = some s :=
  ⟨usersService_ok, (computeAllowedMethods_total usersPreflight [usersService] usersService_ok).1⟩

end Restful
